import Mathlib

/-
  Verification of the semker asynchronous message-processing pipeline.

  Shallow embedding of:
  - src/backend/process/message_processor.py  (MessageProcessor, global `threads`)
  - src/backend/agents/planner.py             (PlannerAgent.process_message_async)
  - src/backend/agents/billing.py / roaming.py / tariff.py / faq.py
                                              (specialist process_message_async)
  - src/backend/config/constants.py           (MessageStatus)
  - src/backend/models/schemas.py             (UpdateResponse, MessageResponse)

  Python dictionaries are modelled as insertion-ordered association lists keyed
  by String.  Timestamps (datetime.now()) are modelled by a monotone Nat clock
  stored in the world state; each now() call reads the clock and bumps it.
  The opaque LLM invocation is a parameter (an oracle value describing what the
  model stream produced), and the MCP tool plugin is modelled by connect/close
  counters.  `statusHistory` and `threadWriteLog` are ghost audit fields that
  record every store to a message status and every store to the global thread
  registry; the executable behaviour does not read them.
-/

set_option autoImplicit false

namespace Semker

/-- A Python dict keyed by strings: insertion-ordered association list.
`dictSet` updates in place when the key exists, else appends (Python dict
assignment semantics). -/
def Dict (α : Type) : Type := List (String × α)

def dictGet {α : Type} : Dict α → String → Option α
  | [], _ => none
  | (k1, v) :: rest, k => if k1 = k then some v else dictGet rest k

def dictSet {α : Type} : Dict α → String → α → Dict α
  | [], k, v => [(k, v)]
  | (k1, v1) :: rest, k, v =>
      if k1 = k then (k1, v) :: rest else (k1, v1) :: dictSet rest k v

/-- MessageStatus string constants from config/constants.py. -/
inductive MessageStatus where
  | received
  | in_progress
  | completed
  | failed
  | cancelled
deriving DecidableEq, Repr

/-- models/schemas.py UpdateResponse (processed_at : datetime modelled as Nat). -/
structure UpdateResponse where
  message_id : String
  status : MessageStatus
  processed_at : Nat
  result : Option String
  agent_name : Option String
deriving DecidableEq, Repr

/-- models/schemas.py MessageResponse. -/
structure MessageResponse where
  message_id : String
  status : MessageStatus
  received_at : Nat
deriving DecidableEq, Repr

/-- One entry of MessageProcessor.messages_store:
a dict with keys content / timestamp / status and, after processing,
processed_at. -/
structure StoredMessage where
  content : String
  timestamp : Nat
  status : MessageStatus
  processed_at : Option Nat := none
deriving DecidableEq, Repr

/-- Opaque semantic-kernel ChatHistoryAgentThread: we only need identity of
the dialogue-context object, modelled as its (opaque) history payload. -/
structure ChatThread where
  history : List String
deriving DecidableEq, Repr

/-- A fresh empty ChatHistoryAgentThread(). -/
def ChatThread.empty : ChatThread := { history := [] }

/-- A value stored in the global `threads` dict: either an actual
ChatHistoryAgentThread or a value of some incompatible shape (the
`isinstance` check in message_processor.py line 179 distinguishes these). -/
inductive ThreadVal where
  | chatHistory (t : ChatThread)
  | other
deriving DecidableEq, Repr

/-- Combined state: the MessageProcessor instance fields (messages_store,
updates_store, the clock standing for wall time) and the module-global
`threads` dict, plus the two ghost audit logs. -/
structure World where
  messages_store : Dict StoredMessage
  updates_store : Dict (List UpdateResponse)
  threads : Dict ThreadVal
  clock : Nat
  statusHistory : List (String × MessageStatus)
  threadWriteLog : List (String × ThreadVal)

def emptyWorld : World :=
  { messages_store := [], updates_store := [], threads := [],
    clock := 0, statusHistory := [], threadWriteLog := [] }

/-- MessageProcessor.submit_message (message_processor.py lines 62-92).
The uuid4 message id is a parameter; freshness is a hypothesis where needed.
Stores the message with status RECEIVED and returns the MessageResponse. -/
def submit_message (w : World) (message_id : String) (content : String) :
    World × MessageResponse :=
  let timestamp := w.clock
  let w1 := { w with
    messages_store := dictSet w.messages_store message_id
      { content := content, timestamp := timestamp,
        status := MessageStatus.received },
    statusHistory := w.statusHistory ++ [(message_id, MessageStatus.received)],
    clock := w.clock + 1 }
  (w1, { message_id := message_id, status := MessageStatus.received,
         received_at := timestamp })

/-- MessageProcessor._on_intermediate_response (lines 94-128): create the
updates list for the message if absent, then append one UpdateResponse. -/
def on_intermediate_response (w : World) (message_id : String)
    (status : MessageStatus) (result : String) (agent_name : String) : World :=
  let update : UpdateResponse :=
    { message_id := message_id, status := status, processed_at := w.clock,
      result := some result, agent_name := some agent_name }
  { w with
    updates_store := dictSet w.updates_store message_id
      ((dictGet w.updates_store message_id).getD [] ++ [update]),
    clock := w.clock + 1 }

/-- message_processor.py lines 177-180: `threads.get(thread_id,
ChatHistoryAgentThread())` followed by the isinstance fallback to a fresh
ChatHistoryAgentThread when the stored value has an incompatible shape. -/
def fetchThread (threads : Dict ThreadVal) (thread_id : String) : ChatThread :=
  let thread := (dictGet threads thread_id).getD
    (ThreadVal.chatHistory ChatThread.empty)
  match thread with
  | ThreadVal.chatHistory t => t
  | ThreadVal.other => ChatThread.empty

def receivedDispatchMsg : String := "Message received and sent to the agent."

/-- First half of MessageProcessor.process_message_async (lines 159-186), up
to and including the thread fetch, before the awaited agent call: set status
IN_PROGRESS and append the Received-stage update (both only when the message
is in the store), then fetch or create the conversation thread.  KernelUtils
construction and get_agent() have no effect on this state.  Returns the
updated world and the local `thread` variable. -/
def procPhase1 (w : World) (message_id : String) (thread_id : String) :
    World × ChatThread :=
  let w1 :=
    match dictGet w.messages_store message_id with
    | some m =>
        let wa := { w with
          messages_store := dictSet w.messages_store message_id
            { m with status := MessageStatus.in_progress },
          statusHistory :=
            w.statusHistory ++ [(message_id, MessageStatus.in_progress)] }
        let processing_update : UpdateResponse :=
          { message_id := message_id, status := MessageStatus.received,
            processed_at := wa.clock, result := some receivedDispatchMsg,
            agent_name := none }
        { wa with
          updates_store := dictSet wa.updates_store message_id
            ((dictGet wa.updates_store message_id).getD []
              ++ [processing_update]),
          clock := wa.clock + 1 }
    | none => w
  (w1, fetchThread w1.threads thread_id)

/-- Second half of MessageProcessor.process_message_async (lines 190-218),
after the awaited agent call.  `outcome` is what the try block observed:
`ok (reply, thread, agent_name)` on success, `error e` when the agent call
raised (the except branch stores FAILED, `str(e)` and no agent name; the
local `thread` keeps its pre-call value `thread0`).  The global threads
entry is then overwritten unconditionally; the final status/update writes
are guarded by membership in messages_store.  The `none` result models the
KeyError that `self.updates_store[message_id]` would raise at line 218 if
the message were in messages_store but had no updates entry. -/
def procPhase2 (w : World) (message_id : String) (thread_id : String)
    (outcome : Except String (String × ChatThread × String))
    (thread0 : ChatThread) : Option World :=
  let st : MessageStatus := match outcome with
    | Except.ok _ => MessageStatus.completed
    | Except.error _ => MessageStatus.failed
  let response : String := match outcome with
    | Except.ok (r, _, _) => r
    | Except.error e => e
  let agent_name : Option String := match outcome with
    | Except.ok (_, _, n) => some n
    | Except.error _ => none
  let thread : ChatThread := match outcome with
    | Except.ok (_, t, _) => t
    | Except.error _ => thread0
  let w1 := { w with
    threads := dictSet w.threads thread_id (ThreadVal.chatHistory thread),
    threadWriteLog :=
      w.threadWriteLog ++ [(thread_id, ThreadVal.chatHistory thread)] }
  match dictGet w1.messages_store message_id with
  | some m =>
      let w2 := { w1 with
        messages_store := dictSet w1.messages_store message_id
          { m with status := st, processed_at := some w1.clock },
        statusHistory := w1.statusHistory ++ [(message_id, st)],
        clock := w1.clock + 1 }
      let final_update : UpdateResponse :=
        { message_id := message_id, status := st, processed_at := w2.clock,
          result := some response, agent_name := agent_name }
      match dictGet w2.updates_store message_id with
      | some us =>
          some { w2 with
            updates_store := dictSet w2.updates_store message_id
              (us ++ [final_update]),
            clock := w2.clock + 1 }
      | none => none
  | none => some w1

/-- What the awaited top-level agent call did: the intermediate updates it
pushed through the bound `self._on_intermediate_response` callback (each a
status, result text and agent name), and its result: `ok (reply, thread,
agent_name)` for a normal return or `error e` when it raised with text e. -/
structure AgentOutcome where
  intermediates : List (MessageStatus × String × String)
  result : Except String (String × ChatThread × String)

/-- MessageProcessor.process_message_async (lines 130-218) as the composition
of the pre-await part, the callback appends performed during the await, and
the post-await part. -/
def process_message_async (w : World) (message_id : String)
    (thread_id : String) (_message_content : String) (agent : AgentOutcome) :
    Option World :=
  let p1 := procPhase1 w message_id thread_id
  let w2 := agent.intermediates.foldl
    (fun wa e => on_intermediate_response wa message_id e.1 e.2.1 e.2.2) p1.1
  procPhase2 w2 message_id thread_id agent.result p1.2

/-- MessageProcessor.get_message_updates (lines 220-242): KeyError when the
message id is not in messages_store, else `updates_store.get(message_id, [])`. -/
def get_message_updates (w : World) (message_id : String) :
    Except String (List UpdateResponse) :=
  match dictGet w.messages_store message_id with
  | none => Except.error
      (String.append (String.append "Message with ID " message_id) " not found")
  | some _ => Except.ok ((dictGet w.updates_store message_id).getD [])

/-- The dict returned by MessageProcessor.get_message_status. -/
structure MessageStatusView where
  message_id : String
  status : MessageStatus
  content : String
  timestamp : Nat
deriving DecidableEq, Repr

/-- MessageProcessor.get_message_status (lines 244-273): KeyError when the
message id is unknown, else the id / status / content / timestamp view. -/
def get_message_status (w : World) (message_id : String) :
    Except String MessageStatusView :=
  match dictGet w.messages_store message_id with
  | none => Except.error
      (String.append (String.append "Message with ID " message_id) " not found")
  | some m => Except.ok
      { message_id := message_id, status := m.status, content := m.content,
        timestamp := m.timestamp }

/-- Updates currently recorded for a message (empty when none). -/
def updatesOf (w : World) (message_id : String) : List UpdateResponse :=
  (dictGet w.updates_store message_id).getD []

/-! Agent configuration constants (agents/billing.py, roaming.py, tariff.py,
faq.py, planner.py). -/

namespace Billing

def AGENT_NAME : String := "Billing"

end Billing

namespace Roaming

def AGENT_NAME : String := "Roaming"

end Roaming

namespace Tariff

def AGENT_NAME : String := "Tariff"

end Tariff

namespace Faq

def AGENT_NAME : String := "FAQ"

end Faq

namespace Planner

def AGENT_NAME : String := "Planner"

end Planner

/-- agents/base.py AgentLLMResponse: the structured object parsed from the
model output (steps is Optional in the pydantic schema, so a parsed value may
carry no steps list). -/
structure AgentLLMResponse where
  steps : Option (List String)
  reply : String
  human_input_required : Bool
  able_to_serve : Bool
deriving DecidableEq, Repr

/-- agents/base.py AgentResponse: the bundle a specialist returns on success. -/
structure AgentResponse where
  reply : String
  human_input_required : Bool
  able_to_serve : Bool
  thread : ChatThread
  agent_name : String
deriving DecidableEq, Repr

/-- MCP plugin connection bookkeeping: how many times `plugin.connect()` and
`plugin.close()` ran on the plugin instance created by this call. -/
structure ToolState where
  connects : Nat
  closes : Nat
deriving DecidableEq, Repr

/-- Oracle for a specialist's model-invocation phase (the `async for` loop
over `self.invoke(...)` plus the validations that follow it, e.g.
billing.py lines 304-321): `emitted` holds the steps lists of the streamed
responses whose intermediate emission succeeded, in order; `final` is
`ok llm` when the loop and the final `model_validate` completed with parsed
object `llm`, and `error e` when anything in that region raised (transport
error, unparseable model output, or the TypeError from joining a null steps
field). -/
structure InvokeOutcome where
  emitted : List (List String)
  final : Except String AgentLLMResponse
deriving Repr

/-- One intermediate-callback record: status, result text, agent name. -/
abbrev EmitRec := MessageStatus × String × String

/-- Python `"\n".join(steps)` where `steps` is Optional: joining None raises
TypeError (there is no None-guard in the agents). -/
def joinSteps : Option (List String) → Except String String
  | some l => Except.ok (String.intercalate "\n" l)
  | none => Except.error "TypeError: can only join an iterable"

/-- The body shared verbatim (modulo the config class) by
BillingAgent/RoamingAgent/TariffAgent/FaqAgent.process_message_async
(billing.py lines 295-331 and the three analogous files):
build the MCP plugin, `await plugin.connect()`, add it to the kernel,
run the model loop emitting one intermediate per streamed response, then
build the AgentResponse with this agent's own `self.name`, `await
plugin.close()`, and return.  There is no try/finally: when the invoke
region raises, the function is abandoned before the `plugin.close()` line,
so the error propagates with `closes = 0`.  `newThread` is the
`_response.thread` attached to the final streamed response. -/
def specialist_process_message_async (agent_name : String)
    (inv : InvokeOutcome) (newThread : ChatThread) :
    List EmitRec × ToolState × Except String AgentResponse :=
  let tool : ToolState := { connects := 1, closes := 0 }
  let emits : List EmitRec := inv.emitted.map (fun steps =>
    (MessageStatus.in_progress, String.intercalate "\n" steps, agent_name))
  match inv.final with
  | Except.error e => (emits, tool, Except.error e)
  | Except.ok llm =>
      let result : AgentResponse :=
        { reply := llm.reply,
          human_input_required := llm.human_input_required,
          able_to_serve := llm.able_to_serve,
          thread := newThread,
          agent_name := agent_name }
      (emits, { tool with closes := tool.closes + 1 }, Except.ok result)

/-- agents/planner.py PlannerAgentResponse (steps Optional in the schema). -/
structure PlannerAgentResponse where
  steps : Option (List String)
  reply : String
  agent_name : String
deriving DecidableEq, Repr

/-- planner.py lines 190-206: the if/elif chain matching the parsed
`agent_name` against the literal catalog names and instantiating the
corresponding specialist; `some n` carries the chosen specialist's own
configured AGENT_NAME (note FaqAgent's name is "FAQ" while the catalog tag
is "Faq"); `none` when nothing matched (`_agent` stays None). -/
def plannerSelectAgentName (chosen : String) : Option String :=
  if chosen = "Billing" then some Billing.AGENT_NAME
  else if chosen = "Roaming" then some Roaming.AGENT_NAME
  else if chosen = "Tariff" then some Tariff.AGENT_NAME
  else if chosen = "Faq" then some Faq.AGENT_NAME
  else none

/-- PlannerAgent.process_message_async (planner.py lines 142-256).  `parsed`
is the validated PlannerAgentResponse of the (last) streamed planner model
response and `planner_thread` that response's thread; we model a
single-yield stream, so the loop body runs once: it emits the joined steps
(raising when steps is null, like the source `"\n".join(_result.steps)`),
then routes.  On a catalog match the planner emits `parsed.reply`, delegates
to the freshly constructed specialist (whose invoke behaviour is the
`specInv` oracle and whose final response thread is `specNewThread`) and
returns the delegate's (reply, thread, agent_name); a specialist raise
propagates (no try in the planner).  With no match it returns its own
(reply, thread, name). -/
def planner_process_message_async (parsed : PlannerAgentResponse)
    (planner_thread : ChatThread) (specInv : InvokeOutcome)
    (specNewThread : ChatThread) :
    List EmitRec × Except String (String × ChatThread × String) :=
  match joinSteps parsed.steps with
  | Except.error e => ([], Except.error e)
  | Except.ok joined =>
      let emits0 : List EmitRec :=
        [(MessageStatus.in_progress, joined, Planner.AGENT_NAME)]
      match plannerSelectAgentName parsed.agent_name with
      | some spec_name =>
          let emits1 := emits0 ++
            [(MessageStatus.in_progress, parsed.reply, Planner.AGENT_NAME)]
          let inner :=
            specialist_process_message_async spec_name specInv specNewThread
          match inner.2.2 with
          | Except.error e => (emits1 ++ inner.1, Except.error e)
          | Except.ok r =>
              (emits1 ++ inner.1, Except.ok (r.reply, r.thread, r.agent_name))
      | none => (emits0, Except.ok (parsed.reply, planner_thread,
          Planner.AGENT_NAME))

/-- The planner call packaged as the AgentOutcome seen by the processor
(KernelUtils.get_agent returns a PlannerAgent, so the top-level agent the
processor awaits is the planner). -/
def plannerOutcome (parsed : PlannerAgentResponse)
    (planner_thread : ChatThread) (specInv : InvokeOutcome)
    (specNewThread : ChatThread) : AgentOutcome :=
  let run := planner_process_message_async parsed planner_thread specInv
    specNewThread
  { intermediates := run.1, result := run.2 }

/-!  Interleaving semantics.  `submit_message` is synchronous; each submitted
message gets one background `process_message_async` task (api.py lines
132-137), which can suspend only at the awaited agent call.  A schedule is
therefore a sequence of atomic steps: a submit, the pre-await part of some
task, callback appends performed during some task's await, and the
post-await part.  `phase2` carries the outcome and the pre-call thread
snapshot as data, over-approximating the values the suspended task could
hold. -/

inductive Step where
  | submit (message_id : String) (content : String)
  | phase1 (message_id : String) (thread_id : String)
  | emit (message_id : String) (status : MessageStatus)
      (result : String) (agent_name : String)
  | phase2 (message_id : String) (thread_id : String)
      (outcome : Except String (String × ChatThread × String))
      (thread0 : ChatThread)

def stepRun (w : World) : Step → Option World
  | Step.submit message_id content => some (submit_message w message_id content).1
  | Step.phase1 message_id thread_id => some (procPhase1 w message_id thread_id).1
  | Step.emit message_id status result agent_name =>
      some (on_intermediate_response w message_id status result agent_name)
  | Step.phase2 message_id thread_id outcome thread0 =>
      procPhase2 w message_id thread_id outcome thread0

def traceRun (w : World) : List Step → Option World
  | [] => some w
  | s :: tr =>
      match stepRun w s with
      | some w1 => traceRun w1 tr
      | none => none

/-- Well-formed schedules: submitted ids are fresh (uuid4), and each
message's single background task runs its pre-await part after the submit
that created it and its post-await part after its pre-await part, each once.
The three accumulator lists are the ids already submitted, already past
phase1, and already past phase2. -/
inductive TraceWF : List String → List String → List String → List Step → Prop where
  | nil (s b e : List String) : TraceWF s b e []
  | submit (s b e : List String) (message_id content : String) (tr : List Step)
      (hfresh : message_id ∉ s)
      (hrest : TraceWF (message_id :: s) b e tr) :
      TraceWF s b e (Step.submit message_id content :: tr)
  | phase1 (s b e : List String) (message_id thread_id : String) (tr : List Step)
      (hsub : message_id ∈ s) (hnew : message_id ∉ b)
      (hrest : TraceWF s (message_id :: b) e tr) :
      TraceWF s b e (Step.phase1 message_id thread_id :: tr)
  | emit (s b e : List String) (message_id : String) (status : MessageStatus)
      (result agent_name : String) (tr : List Step)
      (hrest : TraceWF s b e tr) :
      TraceWF s b e (Step.emit message_id status result agent_name :: tr)
  | phase2 (s b e : List String) (message_id thread_id : String)
      (outcome : Except String (String × ChatThread × String))
      (thread0 : ChatThread) (tr : List Step)
      (hbegun : message_id ∈ b) (hnew : message_id ∉ e)
      (hrest : TraceWF s b (message_id :: e) tr) :
      TraceWF s b e (Step.phase2 message_id thread_id outcome thread0 :: tr)

/-- The ids created by the submit steps of a schedule. -/
def submittedIds : List Step → List String
  | [] => []
  | Step.submit message_id _ :: tr => message_id :: submittedIds tr
  | _ :: tr => submittedIds tr

/-- The sequence of statuses stored for one message, read off the ghost
status audit log. -/
def histOf (w : World) (message_id : String) : List MessageStatus :=
  (w.statusHistory.filter (fun p => p.1 == message_id)).map (fun p => p.2)

/-- The legal status write sequences for one message: a prefix of
Received, InProgress, then one terminal status. -/
def statusSeqOK (l : List MessageStatus) : Prop :=
  l = [] ∨ l = [MessageStatus.received] ∨
  l = [MessageStatus.received, MessageStatus.in_progress] ∨
  l = [MessageStatus.received, MessageStatus.in_progress,
    MessageStatus.completed] ∨
  l = [MessageStatus.received, MessageStatus.in_progress, MessageStatus.failed]

/-- The Received-stage update that procPhase1 appends. -/
def dispatchUpdate (message_id : String) (clk : Nat) : UpdateResponse :=
  { message_id := message_id, status := MessageStatus.received,
    processed_at := clk, result := some receivedDispatchMsg,
    agent_name := none }

/-- The terminal status chosen by the try/except around the agent call. -/
def phase2Status : Except String (String × ChatThread × String) → MessageStatus
  | Except.ok _ => MessageStatus.completed
  | Except.error _ => MessageStatus.failed

/-- The terminal result text: the agent's reply, or str(e) of the raise. -/
def phase2Reply : Except String (String × ChatThread × String) → String
  | Except.ok (r, _, _) => r
  | Except.error e => e

/-- The terminal agent name: the responding agent, or None after a raise. -/
def phase2AgentName :
    Except String (String × ChatThread × String) → Option String
  | Except.ok (_, _, n) => some n
  | Except.error _ => none

/-- The thread value written back: the agent's returned thread on success,
the pre-call snapshot when the agent call raised. -/
def phase2Thread (outcome : Except String (String × ChatThread × String))
    (thread0 : ChatThread) : ChatThread :=
  match outcome with
  | Except.ok (_, t, _) => t
  | Except.error _ => thread0

/-- The terminal update that procPhase2 appends. -/
def finalUpdateOf (message_id : String)
    (outcome : Except String (String × ChatThread × String)) (clk : Nat) :
    UpdateResponse :=
  { message_id := message_id, status := phase2Status outcome,
    processed_at := clk + 1, result := some (phase2Reply outcome),
    agent_name := phase2AgentName outcome }

/-- The fold over the agent's intermediate emissions, as performed inside
process_message_async. -/
def emitFold (message_id : String)
    (es : List (MessageStatus × String × String)) (w : World) : World :=
  es.foldl (fun wa e => on_intermediate_response wa message_id e.1 e.2.1 e.2.2) w

/-- Invariant tying a world to the sets of submitted / begun / finished
message ids of a well-formed schedule: set inclusions, store-key
correspondence, and the exact status audit history of every message in each
lifecycle stage. -/
structure WorldInv (s b e : List String) (w : World) : Prop where
  bs : ∀ id, id ∈ b → id ∈ s
  eb : ∀ id, id ∈ e → id ∈ b
  msgKeys : ∀ id, (dictGet w.messages_store id).isSome = true ↔ id ∈ s
  updKeys : ∀ id, id ∈ b → (dictGet w.updates_store id).isSome = true
  histNone : ∀ id, id ∉ s → histOf w id = []
  histRecv : ∀ id, id ∈ s → id ∉ b → histOf w id = [MessageStatus.received]
  histProg : ∀ id, id ∈ b → id ∉ e →
    histOf w id = [MessageStatus.received, MessageStatus.in_progress]
  histTerm : ∀ id, id ∈ e →
    histOf w id = [MessageStatus.received, MessageStatus.in_progress,
      MessageStatus.completed] ∨
    histOf w id = [MessageStatus.received, MessageStatus.in_progress,
      MessageStatus.failed]

/-! Concrete inputs used by the witness and counterexample theorems. -/

/-- A specialist invoke phase that raises after the tool connection opened. -/
def billingInvokeRaise : InvokeOutcome :=
  { emitted := [], final := Except.error "model invocation failed" }

/-- A specialist invoke phase that completes normally with reply "X". -/
def billingInvokeOk : InvokeOutcome :=
  { emitted := [["step 1"]],
    final := Except.ok
      { steps := some ["step 1"], reply := "X",
        human_input_required := false, able_to_serve := true } }

/-- A parsed planner model output routing to the Billing specialist. -/
def parsedToBilling : PlannerAgentResponse :=
  { steps := some ["route to billing"], reply := "routing to Billing",
    agent_name := "Billing" }

/-- A parsed planner output with a null steps field routing to Billing. -/
def parsedToBillingNullSteps : PlannerAgentResponse :=
  { steps := none, reply := "planner reply", agent_name := "Billing" }

/-- A parsed planner output with a null steps field and an unknown
specialist tag. -/
def parsedNoMatchNullSteps : PlannerAgentResponse :=
  { steps := none, reply := "direct reply", agent_name := "Broadband" }

/-- A world holding one freshly submitted message "m1". -/
def exampleW0 : World :=
  (submit_message emptyWorld "m1" "what is my bill").1

/-- A well-formed one-message schedule used by witnesses: submit, the
pre-await phase, one callback append, then the successful post-await phase. -/
def exampleTrace : List Step :=
  [Step.submit "m1" "what is my bill",
   Step.phase1 "m1" "conv1",
   Step.emit "m1" MessageStatus.in_progress "thinking" "Planner",
   Step.phase2 "m1" "conv1"
     (Except.ok ("your bill is 10", ChatThread.empty, "Billing"))
     ChatThread.empty]

/-- A second well-formed schedule: one message that fails after an
intermediate update, interleaved with a second submitted message. -/
def exampleTrace2 : List Step :=
  [Step.submit "m1" "hello",
   Step.phase1 "m1" "conv1",
   Step.submit "m2" "roaming rates",
   Step.emit "m1" MessageStatus.in_progress "looking" "Billing",
   Step.phase2 "m1" "conv1" (Except.error "boom") ChatThread.empty]

/-- First half of a split schedule used by the C7 witness. -/
def exampleTraceA : List Step :=
  [Step.submit "m1" "hello", Step.phase1 "m1" "conv1"]

/-- Second half of the split schedule: an unrelated submit, one callback
append and the failing post-await phase for "m1". -/
def exampleTraceB : List Step :=
  [Step.submit "m2" "roaming rates",
   Step.emit "m1" MessageStatus.in_progress "looking" "Billing",
   Step.phase2 "m1" "conv1" (Except.error "boom") ChatThread.empty]

/-- The world after the first half of the split schedule. -/
def exampleWA : World := (traceRun emptyWorld exampleTraceA).getD emptyWorld

/-- The world after both halves. -/
def exampleWB : World := (traceRun exampleWA exampleTraceB).getD emptyWorld

/-- The world after the full one-message example schedule. -/
def exampleTraceW : World := (traceRun emptyWorld exampleTrace).getD emptyWorld

/-! Dictionary lemmas. -/

theorem dictGet_dictSet_self {α : Type} (d : Dict α) (k : String) (v : α) :
    dictGet (dictSet d k v) k = some v := by
  induction d with
  | nil => simp [dictSet, dictGet]
  | cons p rest ih =>
      obtain ⟨k1, v1⟩ := p
      by_cases h : k1 = k
      · simp [dictSet, dictGet, h]
      · simp [dictSet, dictGet, h, ih]

theorem dictGet_dictSet_ne {α : Type} (d : Dict α) (k k2 : String) (v : α)
    (h : k2 ≠ k) : dictGet (dictSet d k v) k2 = dictGet d k2 := by
  induction d with
  | nil =>
      have hne : ¬ k = k2 := fun hh => h hh.symm
      simp [dictSet, dictGet, hne]
  | cons p rest ih =>
      obtain ⟨k1, v1⟩ := p
      by_cases h1 : k1 = k
      · subst h1
        have hne : ¬ k1 = k2 := fun hh => h hh.symm
        simp [dictSet, dictGet, hne]
      · simp only [dictSet, if_neg h1]
        by_cases h2 : k1 = k2
        · simp [dictGet, h2]
        · simp [dictGet, h2, ih]

theorem isSome_dictGet_dictSet {α : Type} (d : Dict α) (k k2 : String) (v : α) :
    (dictGet (dictSet d k v) k2).isSome = true ↔
      k2 = k ∨ (dictGet d k2).isSome = true := by
  by_cases h : k2 = k
  · subst h
    simp [dictGet_dictSet_self]
  · simp [dictGet_dictSet_ne d k k2 v h, h]

/-! Shape lemmas for the processor operations. -/

theorem procPhase1_eq_of_mem (w : World) (message_id thread_id : String)
    (m : StoredMessage) (h : dictGet w.messages_store message_id = some m) :
    (procPhase1 w message_id thread_id).1 = { w with
      messages_store := dictSet w.messages_store message_id
        { m with status := MessageStatus.in_progress },
      statusHistory :=
        w.statusHistory ++ [(message_id, MessageStatus.in_progress)],
      updates_store := dictSet w.updates_store message_id
        (updatesOf w message_id ++ [dispatchUpdate message_id w.clock]),
      clock := w.clock + 1 } := by
  simp [procPhase1, h, updatesOf, dispatchUpdate]

theorem procPhase1_eq_of_notmem (w : World) (message_id thread_id : String)
    (h : dictGet w.messages_store message_id = none) :
    (procPhase1 w message_id thread_id).1 = w := by
  simp [procPhase1, h]

theorem procPhase1_snd (w : World) (message_id thread_id : String) :
    (procPhase1 w message_id thread_id).2 = fetchThread w.threads thread_id := by
  unfold procPhase1
  cases dictGet w.messages_store message_id <;> rfl

theorem procPhase2_eq_of_mem (w : World) (message_id thread_id : String)
    (outcome : Except String (String × ChatThread × String))
    (thread0 : ChatThread) (m : StoredMessage) (us : List UpdateResponse)
    (hm : dictGet w.messages_store message_id = some m)
    (hu : dictGet w.updates_store message_id = some us) :
    procPhase2 w message_id thread_id outcome thread0 = some { w with
      threads := dictSet w.threads thread_id
        (ThreadVal.chatHistory (phase2Thread outcome thread0)),
      threadWriteLog := w.threadWriteLog ++
        [(thread_id, ThreadVal.chatHistory (phase2Thread outcome thread0))],
      messages_store := dictSet w.messages_store message_id
        { m with status := phase2Status outcome,
                 processed_at := some w.clock },
      statusHistory := w.statusHistory ++ [(message_id, phase2Status outcome)],
      updates_store := dictSet w.updates_store message_id
        (us ++ [finalUpdateOf message_id outcome w.clock]),
      clock := w.clock + 2 } := by
  cases outcome with
  | ok r =>
      obtain ⟨r1, r2, r3⟩ := r
      simp [procPhase2, hm, hu, phase2Status, phase2Reply, phase2AgentName,
        phase2Thread, finalUpdateOf]
  | error e =>
      simp [procPhase2, hm, hu, phase2Status, phase2Reply, phase2AgentName,
        phase2Thread, finalUpdateOf]

theorem procPhase2_eq_of_notmem (w : World) (message_id thread_id : String)
    (outcome : Except String (String × ChatThread × String))
    (thread0 : ChatThread)
    (hm : dictGet w.messages_store message_id = none) :
    procPhase2 w message_id thread_id outcome thread0 = some { w with
      threads := dictSet w.threads thread_id
        (ThreadVal.chatHistory (phase2Thread outcome thread0)),
      threadWriteLog := w.threadWriteLog ++
        [(thread_id, ThreadVal.chatHistory (phase2Thread outcome thread0))] } := by
  cases outcome with
  | ok r =>
      obtain ⟨r1, r2, r3⟩ := r
      simp [procPhase2, hm, phase2Thread]
  | error e =>
      simp [procPhase2, hm, phase2Thread]

/-! Preservation lemmas for the intermediate-callback appends. -/

theorem emit_messages_store (w : World) (message_id : String)
    (status : MessageStatus) (result agent_name : String) :
    (on_intermediate_response w message_id status result agent_name).messages_store
      = w.messages_store := rfl

theorem emit_statusHistory (w : World) (message_id : String)
    (status : MessageStatus) (result agent_name : String) :
    (on_intermediate_response w message_id status result agent_name).statusHistory
      = w.statusHistory := rfl

theorem emit_threads (w : World) (message_id : String)
    (status : MessageStatus) (result agent_name : String) :
    (on_intermediate_response w message_id status result agent_name).threads
      = w.threads := rfl

theorem emit_threadWriteLog (w : World) (message_id : String)
    (status : MessageStatus) (result agent_name : String) :
    (on_intermediate_response w message_id status result agent_name).threadWriteLog
      = w.threadWriteLog := rfl

theorem emit_updatesOf (w : World) (message_id : String)
    (status : MessageStatus) (result agent_name : String) (id2 : String) :
    ∃ t, updatesOf (on_intermediate_response w message_id status result agent_name) id2
      = updatesOf w id2 ++ t := by
  by_cases h : id2 = message_id
  · subst h
    refine ⟨[UpdateResponse.mk id2 status w.clock (some result) (some agent_name)], ?_⟩
    simp [on_intermediate_response, updatesOf, dictGet_dictSet_self]
  · refine ⟨[], ?_⟩
    simp [on_intermediate_response, updatesOf,
      dictGet_dictSet_ne w.updates_store message_id id2 _ h]

theorem emit_updates_isSome (w : World) (message_id : String)
    (status : MessageStatus) (result agent_name : String) (id2 : String)
    (h : (dictGet w.updates_store id2).isSome = true) :
    (dictGet (on_intermediate_response w message_id status result agent_name).updates_store
      id2).isSome = true := by
  simp only [on_intermediate_response]
  exact (isSome_dictGet_dictSet _ _ _ _).2 (Or.inr h)

theorem process_message_async_eq (w : World) (message_id thread_id mc : String)
    (agent : AgentOutcome) :
    process_message_async w message_id thread_id mc agent =
      procPhase2 (emitFold message_id agent.intermediates
          (procPhase1 w message_id thread_id).1)
        message_id thread_id agent.result
        (procPhase1 w message_id thread_id).2 := rfl

theorem emitFold_messages_store (message_id : String)
    (es : List (MessageStatus × String × String)) (w : World) :
    (emitFold message_id es w).messages_store = w.messages_store := by
  induction es generalizing w with
  | nil => rfl
  | cons e rest ih => exact ih (on_intermediate_response w message_id e.1 e.2.1 e.2.2)

theorem emitFold_statusHistory (message_id : String)
    (es : List (MessageStatus × String × String)) (w : World) :
    (emitFold message_id es w).statusHistory = w.statusHistory := by
  induction es generalizing w with
  | nil => rfl
  | cons e rest ih => exact ih (on_intermediate_response w message_id e.1 e.2.1 e.2.2)

theorem emitFold_threads (message_id : String)
    (es : List (MessageStatus × String × String)) (w : World) :
    (emitFold message_id es w).threads = w.threads := by
  induction es generalizing w with
  | nil => rfl
  | cons e rest ih => exact ih (on_intermediate_response w message_id e.1 e.2.1 e.2.2)

theorem emitFold_threadWriteLog (message_id : String)
    (es : List (MessageStatus × String × String)) (w : World) :
    (emitFold message_id es w).threadWriteLog = w.threadWriteLog := by
  induction es generalizing w with
  | nil => rfl
  | cons e rest ih => exact ih (on_intermediate_response w message_id e.1 e.2.1 e.2.2)

theorem emitFold_updatesOf (message_id : String)
    (es : List (MessageStatus × String × String)) (w : World) (id2 : String) :
    ∃ t, updatesOf (emitFold message_id es w) id2 = updatesOf w id2 ++ t := by
  induction es generalizing w with
  | nil => exact ⟨[], by simp [emitFold]⟩
  | cons e rest ih =>
      obtain ⟨t1, h1⟩ := emit_updatesOf w message_id e.1 e.2.1 e.2.2 id2
      obtain ⟨t2, h2⟩ := ih (on_intermediate_response w message_id e.1 e.2.1 e.2.2)
      exact ⟨t1 ++ t2, by
        simp only [emitFold, List.foldl_cons] at h2 ⊢
        rw [h2, h1, List.append_assoc]⟩

theorem emitFold_updates_isSome (message_id : String)
    (es : List (MessageStatus × String × String)) (w : World) (id2 : String)
    (h : (dictGet w.updates_store id2).isSome = true) :
    (dictGet (emitFold message_id es w).updates_store id2).isSome = true := by
  induction es generalizing w with
  | nil => exact h
  | cons e rest ih =>
      exact ih (on_intermediate_response w message_id e.1 e.2.1 e.2.2)
        (emit_updates_isSome w message_id e.1 e.2.1 e.2.2 id2 h)

theorem procPhase1_threads_eq (w : World) (message_id thread_id : String) :
    (procPhase1 w message_id thread_id).1.threads = w.threads := by
  unfold procPhase1
  cases dictGet w.messages_store message_id <;> rfl

theorem procPhase1_threadWriteLog_eq (w : World) (message_id thread_id : String) :
    (procPhase1 w message_id thread_id).1.threadWriteLog = w.threadWriteLog := by
  unfold procPhase1
  cases dictGet w.messages_store message_id <;> rfl

theorem procPhase2_eq_none (w : World) (message_id thread_id : String)
    (outcome : Except String (String × ChatThread × String))
    (thread0 : ChatThread) (m : StoredMessage)
    (hm : dictGet w.messages_store message_id = some m)
    (hu : dictGet w.updates_store message_id = none) :
    procPhase2 w message_id thread_id outcome thread0 = none := by
  cases outcome with
  | ok r =>
      obtain ⟨r1, r2, r3⟩ := r
      simp [procPhase2, hm, hu]
  | error e => simp [procPhase2, hm, hu]

theorem snocLast {α : Type} (l : List α) (a : α) :
    (l ++ [a]).getLast? = some a := by
  rw [List.getLast?_append_cons]
  rfl

/-- Shared shape of a completed process_message_async run on a message that
is in the store: the run returns normally, the stored status becomes the
try/except outcome status, and the update list grows by exactly the
Received-stage dispatch update, the agent's intermediate updates, then the
terminal update built from the outcome. -/
theorem process_updates_shape (w : World) (message_id thread_id mc : String)
    (agent : AgentOutcome)
    (h : (dictGet w.messages_store message_id).isSome = true) :
    ∃ w1 t0 clk,
      process_message_async w message_id thread_id mc agent = some w1 ∧
      (dictGet w1.messages_store message_id).map (fun m => m.status)
        = some (phase2Status agent.result) ∧
      updatesOf w1 message_id =
        updatesOf w message_id ++ [dispatchUpdate message_id w.clock] ++ t0 ++
          [finalUpdateOf message_id agent.result clk] := by
  obtain ⟨m, hm⟩ := Option.isSome_iff_exists.1 h
  have hp1 := procPhase1_eq_of_mem w message_id thread_id m hm
  have hAmsg : dictGet (procPhase1 w message_id thread_id).1.messages_store
      message_id = some { m with status := MessageStatus.in_progress } := by
    rw [hp1]
    exact dictGet_dictSet_self _ _ _
  have hAupd : dictGet (procPhase1 w message_id thread_id).1.updates_store
      message_id
      = some (updatesOf w message_id ++ [dispatchUpdate message_id w.clock]) := by
    rw [hp1]
    exact dictGet_dictSet_self _ _ _
  have h2msg : dictGet (emitFold message_id agent.intermediates
      (procPhase1 w message_id thread_id).1).messages_store message_id
      = some { m with status := MessageStatus.in_progress } := by
    rw [emitFold_messages_store]
    exact hAmsg
  have h2some : (dictGet (emitFold message_id agent.intermediates
      (procPhase1 w message_id thread_id).1).updates_store message_id).isSome
      = true :=
    emitFold_updates_isSome _ _ _ _ (by rw [hAupd]; rfl)
  obtain ⟨us2, hu2⟩ := Option.isSome_iff_exists.1 h2some
  obtain ⟨t0, ht0⟩ := emitFold_updatesOf message_id agent.intermediates
    (procPhase1 w message_id thread_id).1 message_id
  have hus2 : us2
      = updatesOf w message_id ++ [dispatchUpdate message_id w.clock] ++ t0 := by
    have e1 : updatesOf (emitFold message_id agent.intermediates
        (procPhase1 w message_id thread_id).1) message_id = us2 := by
      simp [updatesOf, hu2]
    have e2 : updatesOf (procPhase1 w message_id thread_id).1 message_id
        = updatesOf w message_id ++ [dispatchUpdate message_id w.clock] := by
      simp [updatesOf, hAupd]
    rw [← e1, ht0, e2]
  have hp2 := procPhase2_eq_of_mem
    (emitFold message_id agent.intermediates (procPhase1 w message_id thread_id).1)
    message_id thread_id agent.result (procPhase1 w message_id thread_id).2
    { m with status := MessageStatus.in_progress } us2 h2msg hu2
  refine ⟨_, t0,
    (emitFold message_id agent.intermediates
      (procPhase1 w message_id thread_id).1).clock, hp2, ?_, ?_⟩
  · simp only [dictGet_dictSet_self]
    rfl
  · simp only [updatesOf, dictGet_dictSet_self, Option.getD_some, hus2]

/-- Shared consequence: the last stored update of a completed run carries
the outcome's status, reply text and agent name. -/
theorem process_last_update (w : World) (message_id thread_id mc : String)
    (agent : AgentOutcome)
    (h : (dictGet w.messages_store message_id).isSome = true) :
    ∃ w1, process_message_async w message_id thread_id mc agent = some w1 ∧
      (dictGet w1.messages_store message_id).map (fun m => m.status)
        = some (phase2Status agent.result) ∧
      ∃ fin, (updatesOf w1 message_id).getLast? = some fin ∧
        fin.status = phase2Status agent.result ∧
        fin.result = some (phase2Reply agent.result) ∧
        fin.agent_name = phase2AgentName agent.result ∧
        fin.message_id = message_id := by
  obtain ⟨w1, t0, clk, hrun, hst, hupd⟩ :=
    process_updates_shape w message_id thread_id mc agent h
  refine ⟨w1, hrun, hst, finalUpdateOf message_id agent.result clk, ?_,
    rfl, rfl, rfl, rfl⟩
  rw [hupd, snocLast]

/-- Shared shape of a completed run on the thread-registry side: the global
threads dict entry for the conversation id is overwritten with the outcome
thread (pre-call snapshot on failure), and exactly one write is logged. -/
theorem process_threads_shape (w : World) (message_id thread_id mc : String)
    (agent : AgentOutcome) (w1 : World)
    (h : process_message_async w message_id thread_id mc agent = some w1) :
    w1.threads = dictSet w.threads thread_id (ThreadVal.chatHistory
      (phase2Thread agent.result (fetchThread w.threads thread_id))) ∧
    w1.threadWriteLog = w.threadWriteLog ++ [(thread_id, ThreadVal.chatHistory
      (phase2Thread agent.result (fetchThread w.threads thread_id)))] := by
  have hrun : procPhase2
      (emitFold message_id agent.intermediates
        (procPhase1 w message_id thread_id).1)
      message_id thread_id agent.result
      (procPhase1 w message_id thread_id).2 = some w1 := h
  have hth : (emitFold message_id agent.intermediates
      (procPhase1 w message_id thread_id).1).threads = w.threads := by
    rw [emitFold_threads, procPhase1_threads_eq]
  have hlog : (emitFold message_id agent.intermediates
      (procPhase1 w message_id thread_id).1).threadWriteLog
      = w.threadWriteLog := by
    rw [emitFold_threadWriteLog, procPhase1_threadWriteLog_eq]
  have hsnd := procPhase1_snd w message_id thread_id
  cases hm2 : dictGet (emitFold message_id agent.intermediates
      (procPhase1 w message_id thread_id).1).messages_store message_id with
  | none =>
      rw [procPhase2_eq_of_notmem _ _ _ _ _ hm2] at hrun
      injection hrun with hw1
      subst hw1
      refine ⟨?_, ?_⟩
      · dsimp only
        rw [hth, hsnd]
      · dsimp only
        rw [hlog, hsnd]
  | some m2 =>
      cases hu2 : dictGet (emitFold message_id agent.intermediates
          (procPhase1 w message_id thread_id).1).updates_store message_id with
      | none =>
          rw [procPhase2_eq_none _ _ _ _ _ m2 hm2 hu2] at hrun
          exact absurd hrun (by simp)
      | some us2 =>
          rw [procPhase2_eq_of_mem _ _ _ _ _ m2 us2 hm2 hu2] at hrun
          injection hrun with hw1
          subst hw1
          refine ⟨?_, ?_⟩
          · dsimp only
            rw [hth, hsnd]
          · dsimp only
            rw [hlog, hsnd]

/-- C9: when process_message_async looks up the conversation thread for a
conversation id, the pre-call thread handed to the agent call is the stored
thread object when one is present with the expected ChatHistoryAgentThread
shape, and a fresh empty thread when the entry is missing or the stored
value has an incompatible shape (a corrupt value is never propagated). -/
theorem claim_thread_lookup_fallback (w : World) (message_id thread_id : String)
    (t : ChatThread) :
    ((procPhase1 w message_id thread_id).2 = fetchThread w.threads thread_id) ∧
    (dictGet w.threads thread_id = some (ThreadVal.chatHistory t) →
      fetchThread w.threads thread_id = t) ∧
    (dictGet w.threads thread_id = none →
      fetchThread w.threads thread_id = ChatThread.empty) ∧
    (dictGet w.threads thread_id = some ThreadVal.other →
      fetchThread w.threads thread_id = ChatThread.empty) := by
  refine ⟨procPhase1_snd w message_id thread_id, ?_, ?_, ?_⟩ <;>
    intro h <;> simp [fetchThread, h]

/-- Witness for C9 at three concrete registries: a stored thread of the
expected shape, a missing entry, and a stored value of incompatible shape. -/
theorem claim_thread_lookup_fallback_witness :
    fetchThread [("conv1", ThreadVal.chatHistory (ChatThread.mk ["hi"]))] "conv1"
      = ChatThread.mk ["hi"] ∧
    fetchThread [] "conv1" = ChatThread.empty ∧
    fetchThread [("conv1", ThreadVal.other)] "conv1" = ChatThread.empty :=
  ⟨(claim_thread_lookup_fallback
      { emptyWorld with
        threads := [("conv1", ThreadVal.chatHistory (ChatThread.mk ["hi"]))] }
      "m1" "conv1" (ChatThread.mk ["hi"])).2.1 rfl,
   (claim_thread_lookup_fallback emptyWorld "m1" "conv1"
      (ChatThread.mk [])).2.2.1 rfl,
   (claim_thread_lookup_fallback
      { emptyWorld with threads := [("conv1", ThreadVal.other)] }
      "m1" "conv1" (ChatThread.mk [])).2.2.2 rfl⟩

/-- C6: get_message_updates and get_message_status fail with KeyError
exactly for message ids never stored by submit_message; a submitted id with
no updates yet yields the empty list rather than failing; and immediately
after submit_message the returned id's status reads Received. -/
theorem claim_lookup_not_found (w : World) (message_id content : String) :
    ((∃ err, get_message_updates w message_id = Except.error err) ↔
      dictGet w.messages_store message_id = none) ∧
    ((dictGet w.messages_store message_id).isSome = true →
      dictGet w.updates_store message_id = none →
      get_message_updates w message_id = Except.ok []) ∧
    ((∃ err, get_message_status w message_id = Except.error err) ↔
      dictGet w.messages_store message_id = none) ∧
    (get_message_status (submit_message w message_id content).1 message_id =
      Except.ok (MessageStatusView.mk message_id MessageStatus.received
        content w.clock)) := by
  refine ⟨?_, ?_, ?_, ?_⟩
  · cases hm : dictGet w.messages_store message_id <;>
      simp [get_message_updates, hm]
  · intro h1 h2
    obtain ⟨m, hm⟩ := Option.isSome_iff_exists.1 h1
    simp [get_message_updates, hm, h2]
  · cases hm : dictGet w.messages_store message_id <;>
      simp [get_message_status, hm]
  · simp [get_message_status, submit_message, dictGet_dictSet_self]

/-- Witness for C6: unknown id fails on both reads, a fresh submission has
zero updates and Received status. -/
theorem claim_lookup_not_found_witness :
    (∃ err, get_message_updates emptyWorld "nope" = Except.error err) ∧
    (∃ err, get_message_status emptyWorld "nope" = Except.error err) ∧
    get_message_updates exampleW0 "m1" = Except.ok [] ∧
    get_message_status exampleW0 "m1" = Except.ok
      (MessageStatusView.mk "m1" MessageStatus.received "what is my bill" 0) :=
  ⟨(claim_lookup_not_found emptyWorld "nope" "x").1.mpr rfl,
   (claim_lookup_not_found emptyWorld "nope" "x").2.2.1.mpr rfl,
   (claim_lookup_not_found exampleW0 "m1" "x").2.1 rfl rfl,
   (claim_lookup_not_found emptyWorld "m1" "what is my bill").2.2.2⟩

/-- C2: when the top-level agent call raises, the stored status becomes
Failed, the terminal update carries str(e) as result with no agent name,
and the exception is not re-raised (process_message_async returns
normally rather than propagating the error). -/
theorem claim_failure_terminal_update (w : World)
    (message_id thread_id mc : String)
    (inters : List (MessageStatus × String × String)) (e : String)
    (h : (dictGet w.messages_store message_id).isSome = true) :
    ∃ w1, process_message_async w message_id thread_id mc
        (AgentOutcome.mk inters (Except.error e)) = some w1 ∧
      (dictGet w1.messages_store message_id).map (fun m => m.status)
        = some MessageStatus.failed ∧
      ∃ fin, (updatesOf w1 message_id).getLast? = some fin ∧
        fin.status = MessageStatus.failed ∧ fin.result = some e ∧
        fin.agent_name = none := by
  obtain ⟨w1, hrun, hst, fin, hlast, hfs, hfr, hfa, _⟩ :=
    process_last_update w message_id thread_id mc
      (AgentOutcome.mk inters (Except.error e)) h
  exact ⟨w1, hrun, hst, fin, hlast, hfs, hfr, hfa⟩

/-- Witness for C2: a submitted message whose agent call raises "boom". -/
theorem claim_failure_terminal_update_witness :
    ∃ w1, process_message_async exampleW0 "m1" "conv1" "what is my bill"
        (AgentOutcome.mk [] (Except.error "boom")) = some w1 ∧
      (dictGet w1.messages_store "m1").map (fun m => m.status)
        = some MessageStatus.failed ∧
      ∃ fin, (updatesOf w1 "m1").getLast? = some fin ∧
        fin.status = MessageStatus.failed ∧ fin.result = some "boom" ∧
        fin.agent_name = none :=
  claim_failure_terminal_update exampleW0 "m1" "conv1" "what is my bill"
    [] "boom" rfl

/-- C8: for a stored message with no updates yet (the state in which the
background task starts), a completed run — success or failure — leaves a
non-empty update list whose first element is the Received-stage dispatch
update written before the agent call and whose last element is terminal. -/
theorem claim_updates_bracketed (w : World) (message_id thread_id mc : String)
    (agent : AgentOutcome)
    (h1 : (dictGet w.messages_store message_id).isSome = true)
    (h2 : updatesOf w message_id = []) :
    ∃ w1, process_message_async w message_id thread_id mc agent = some w1 ∧
      ∃ us, get_message_updates w1 message_id = Except.ok us ∧
        us ≠ [] ∧
        us.head? = some (dispatchUpdate message_id w.clock) ∧
        (dispatchUpdate message_id w.clock).status = MessageStatus.received ∧
        (dispatchUpdate message_id w.clock).result = some receivedDispatchMsg ∧
        (dispatchUpdate message_id w.clock).agent_name = none ∧
        ∃ fin, us.getLast? = some fin ∧
          (fin.status = MessageStatus.completed ∨
            fin.status = MessageStatus.failed) := by
  obtain ⟨w1, t0, clk, hrun, hst, hupd⟩ :=
    process_updates_shape w message_id thread_id mc agent h1
  rw [h2] at hupd
  have hmm : ∃ mm, dictGet w1.messages_store message_id = some mm := by
    cases hq : dictGet w1.messages_store message_id with
    | none => rw [hq] at hst; exact absurd hst (by simp)
    | some mm => exact ⟨mm, rfl⟩
  obtain ⟨mm, hmm⟩ := hmm
  refine ⟨w1, hrun, updatesOf w1 message_id, ?_, ?_, ?_, rfl, rfl, rfl,
    finalUpdateOf message_id agent.result clk, ?_, ?_⟩
  · simp [get_message_updates, hmm, updatesOf]
  · rw [hupd]; simp
  · rw [hupd]; rfl
  · rw [hupd]
    have hsplit : [] ++ [dispatchUpdate message_id w.clock] ++ t0
          ++ [finalUpdateOf message_id agent.result clk]
        = (dispatchUpdate message_id w.clock :: t0)
          ++ [finalUpdateOf message_id agent.result clk] := by simp
    rw [hsplit, snocLast]
  · cases hres : agent.result with
    | ok r => exact Or.inl (by simp [finalUpdateOf, phase2Status, hres])
    | error s => exact Or.inr (by simp [finalUpdateOf, phase2Status, hres])

/-- Witness for C8: a run with one intermediate update that completes. -/
theorem claim_updates_bracketed_witness :
    ∃ w1, process_message_async exampleW0 "m1" "conv1" "what is my bill"
        (AgentOutcome.mk [(MessageStatus.in_progress, "working", "Planner")]
          (Except.ok ("done", ChatThread.empty, "Billing"))) = some w1 ∧
      ∃ us, get_message_updates w1 "m1" = Except.ok us ∧
        us ≠ [] ∧
        us.head? = some (dispatchUpdate "m1" exampleW0.clock) ∧
        (dispatchUpdate "m1" exampleW0.clock).status = MessageStatus.received ∧
        (dispatchUpdate "m1" exampleW0.clock).result
          = some receivedDispatchMsg ∧
        (dispatchUpdate "m1" exampleW0.clock).agent_name = none ∧
        ∃ fin, us.getLast? = some fin ∧
          (fin.status = MessageStatus.completed ∨
            fin.status = MessageStatus.failed) :=
  claim_updates_bracketed exampleW0 "m1" "conv1" "what is my bill"
    (AgentOutcome.mk [(MessageStatus.in_progress, "working", "Planner")]
      (Except.ok ("done", ChatThread.empty, "Billing"))) rfl rfl

/-- C10: every completed run of process_message_async writes the global
thread registry entry for its conversation id exactly once — on success the
agent's returned thread, and on the failure path the pre-call snapshot
(the previously stored thread or a fresh empty one) — and leaves every
other conversation's entry untouched. -/
theorem claim_thread_registry_overwrite (w : World)
    (message_id thread_id mc : String) (agent : AgentOutcome) (w1 : World)
    (h : process_message_async w message_id thread_id mc agent = some w1) :
    w1.threadWriteLog = w.threadWriteLog ++ [(thread_id, ThreadVal.chatHistory
      (phase2Thread agent.result (fetchThread w.threads thread_id)))] ∧
    dictGet w1.threads thread_id = some (ThreadVal.chatHistory
      (phase2Thread agent.result (fetchThread w.threads thread_id))) ∧
    ∀ tid2, tid2 ≠ thread_id →
      dictGet w1.threads tid2 = dictGet w.threads tid2 := by
  obtain ⟨hth, hlog⟩ :=
    process_threads_shape w message_id thread_id mc agent w1 h
  refine ⟨hlog, ?_, ?_⟩
  · rw [hth]
    exact dictGet_dictSet_self _ _ _
  · intro tid2 hne
    rw [hth]
    exact dictGet_dictSet_ne _ _ _ _ hne

/-- Witness for C10: a failed run still overwrites the registry entry for
its conversation exactly once, with the pre-call snapshot. -/
theorem claim_thread_registry_overwrite_witness :
    ((process_message_async exampleW0 "m1" "conv1" "what is my bill"
        (AgentOutcome.mk [] (Except.error "boom"))).getD emptyWorld).threadWriteLog
      = exampleW0.threadWriteLog ++ [("conv1", ThreadVal.chatHistory
        (phase2Thread (Except.error "boom")
          (fetchThread exampleW0.threads "conv1")))] ∧
    dictGet ((process_message_async exampleW0 "m1" "conv1" "what is my bill"
        (AgentOutcome.mk [] (Except.error "boom"))).getD emptyWorld).threads
        "conv1"
      = some (ThreadVal.chatHistory (phase2Thread (Except.error "boom")
        (fetchThread exampleW0.threads "conv1"))) ∧
    dictGet ((process_message_async exampleW0 "m1" "conv1" "what is my bill"
        (AgentOutcome.mk [] (Except.error "boom"))).getD emptyWorld).threads
        "conv2"
      = dictGet exampleW0.threads "conv2" := by
  have h := claim_thread_registry_overwrite exampleW0 "m1" "conv1"
    "what is my bill" (AgentOutcome.mk [] (Except.error "boom"))
    ((process_message_async exampleW0 "m1" "conv1" "what is my bill"
      (AgentOutcome.mk [] (Except.error "boom"))).getD emptyWorld) rfl
  exact ⟨h.1, h.2.1, h.2.2 "conv2" (by decide)⟩

/-- C1: evaluation of the specialist flow at the failing input.  All four
specialists (billing, roaming, tariff, FAQ) share this body verbatim modulo
their config class.  When the model-invocation region raises after
`plugin.connect()` succeeded, the connection was opened once but
`plugin.close()` never runs — the source has no try/finally, so the close
call on the success path is simply skipped — and the error propagates; the
processor then marks the message Failed with a Failed terminal update.
The close-on-exception half of the claim is violated by the code; the
Failed-status half holds. -/
theorem claim_specialist_close_skipped_on_raise :
    (specialist_process_message_async Billing.AGENT_NAME billingInvokeRaise
      ChatThread.empty).2.1 = ToolState.mk 1 0 ∧
    (specialist_process_message_async Billing.AGENT_NAME billingInvokeRaise
      ChatThread.empty).2.2 = Except.error "model invocation failed" ∧
    (specialist_process_message_async Billing.AGENT_NAME billingInvokeOk
      ChatThread.empty).2.1 = ToolState.mk 1 1 ∧
    ((process_message_async exampleW0 "m1" "conv1" "what is my bill"
        (plannerOutcome parsedToBilling ChatThread.empty billingInvokeRaise
          ChatThread.empty)).map (fun w1 =>
      ((dictGet w1.messages_store "m1").map (fun m => m.status),
        ((updatesOf w1 "m1").getLast?).map (fun u => u.status))))
      = some (some MessageStatus.failed, some MessageStatus.failed) := by
  exact ⟨rfl, rfl, rfl, rfl⟩

/-- C4 counterexample: a parsed planner output routing to "Billing" whose
steps field is null, with a Billing delegate that would return reply "X".
The planner raises (TypeError from joining None) in its own progress
emission before delegating, so the value returned to the processor is not
the delegate's (reply, thread, name) bundle, refuting the claim as stated. -/
theorem claim_planner_delegation_counterexample :
    (planner_process_message_async parsedToBillingNullSteps ChatThread.empty
      billingInvokeOk (ChatThread.mk ["d"])).2
      = Except.error "TypeError: can only join an iterable" ∧
    (planner_process_message_async parsedToBillingNullSteps ChatThread.empty
      billingInvokeOk (ChatThread.mk ["d"])).2
      ≠ Except.ok ("X", ChatThread.mk ["d"], "Billing") := by
  refine ⟨rfl, fun hcontra => ?_⟩
  exact absurd hcontra (by simp [planner_process_message_async,
    parsedToBillingNullSteps, joinSteps])

/-- C4 (amended): provided the parsed planner output's steps field is a
list (so the planner's own progress emission does not raise) and the
delegate's invoke phase completes, a parsed output naming a known catalog
specialist makes the planner return exactly the delegate's reply, the
delegate's updated thread and the delegate's own agent name — never the
planner's own name — and the terminal update of the processing run then
carries the specialist's reply and agent name. -/
theorem claim_planner_delegation (parsed : PlannerAgentResponse)
    (stepsList : List String) (hsteps : parsed.steps = some stepsList)
    (spec_name : String)
    (hsel : plannerSelectAgentName parsed.agent_name = some spec_name)
    (planner_thread specNewThread : ChatThread) (specInv : InvokeOutcome)
    (llm : AgentLLMResponse) (hok : specInv.final = Except.ok llm) :
    (planner_process_message_async parsed planner_thread specInv
      specNewThread).2 = Except.ok (llm.reply, specNewThread, spec_name) ∧
    spec_name ≠ Planner.AGENT_NAME ∧
    ∀ w message_id thread_id mc,
      (dictGet w.messages_store message_id).isSome = true →
      ∃ w1, process_message_async w message_id thread_id mc
          (plannerOutcome parsed planner_thread specInv specNewThread)
          = some w1 ∧
        ∃ fin, (updatesOf w1 message_id).getLast? = some fin ∧
          fin.status = MessageStatus.completed ∧
          fin.result = some llm.reply ∧ fin.agent_name = some spec_name := by
  have hrun : (planner_process_message_async parsed planner_thread specInv
      specNewThread).2 = Except.ok (llm.reply, specNewThread, spec_name) := by
    simp [planner_process_message_async, hsteps, joinSteps, hsel,
      specialist_process_message_async, hok]
  refine ⟨hrun, ?_, ?_⟩
  · have h4 : spec_name = "Billing" ∨ spec_name = "Roaming" ∨
        spec_name = "Tariff" ∨ spec_name = "FAQ" := by
      simp only [plannerSelectAgentName] at hsel
      split_ifs at hsel <;>
        simp_all [Billing.AGENT_NAME, Roaming.AGENT_NAME, Tariff.AGENT_NAME,
          Faq.AGENT_NAME]
    rcases h4 with h | h | h | h <;> subst h <;> decide
  · intro w message_id thread_id mc hmem
    obtain ⟨w1, hr, _, fin, hlast, hfs, hfr, hfa, _⟩ :=
      process_last_update w message_id thread_id mc
        (plannerOutcome parsed planner_thread specInv specNewThread) hmem
    have hres : (plannerOutcome parsed planner_thread specInv
        specNewThread).result
        = Except.ok (llm.reply, specNewThread, spec_name) := hrun
    refine ⟨w1, hr, fin, hlast, ?_, ?_, ?_⟩
    · rw [hfs, hres]
      rfl
    · rw [hfr, hres]
      rfl
    · rw [hfa, hres]
      rfl

/-- Witness for the amended C4: routing to Billing with a present steps
list; the delegate's reply "X" and name "Billing" reach the terminal
update. -/
theorem claim_planner_delegation_witness :
    (planner_process_message_async parsedToBilling ChatThread.empty
      billingInvokeOk ChatThread.empty).2
      = Except.ok ("X", ChatThread.empty, "Billing") ∧
    ∃ w1, process_message_async exampleW0 "m1" "conv1" "what is my bill"
        (plannerOutcome parsedToBilling ChatThread.empty billingInvokeOk
          ChatThread.empty) = some w1 ∧
      ∃ fin, (updatesOf w1 "m1").getLast? = some fin ∧
        fin.status = MessageStatus.completed ∧
        fin.result = some "X" ∧ fin.agent_name = some "Billing" := by
  have h := claim_planner_delegation parsedToBilling ["route to billing"] rfl
    "Billing" rfl ChatThread.empty ChatThread.empty billingInvokeOk
    (AgentLLMResponse.mk (some ["step 1"]) "X" false true) rfl
  exact ⟨h.1, h.2.2 exampleW0 "m1" "conv1" "what is my bill" rfl⟩

/-- C5 counterexample: a parsed planner output with an unknown specialist
tag and a null steps field.  The claim says any catalog miss returns the
planner's own reply without raising; instead the progress-emission join of
None raises, so the planner call fails. -/
theorem claim_planner_no_match_counterexample :
    (planner_process_message_async parsedNoMatchNullSteps ChatThread.empty
      billingInvokeOk ChatThread.empty).2
      = Except.error "TypeError: can only join an iterable" ∧
    (planner_process_message_async parsedNoMatchNullSteps ChatThread.empty
      billingInvokeOk ChatThread.empty).2
      ≠ Except.ok ("direct reply", ChatThread.empty, Planner.AGENT_NAME) := by
  refine ⟨rfl, fun hcontra => ?_⟩
  exact absurd hcontra (by simp [planner_process_message_async,
    parsedNoMatchNullSteps, joinSteps])

/-- C5 (amended): provided the parsed planner output's steps field is a
list, a parsed output whose specialist tag matches none of the catalog
entries — any unknown or arbitrary string — makes the planner return its
own direct reply, its own thread and its own name, without raising. -/
theorem claim_planner_no_match (parsed : PlannerAgentResponse)
    (stepsList : List String) (hsteps : parsed.steps = some stepsList)
    (hsel : plannerSelectAgentName parsed.agent_name = none)
    (planner_thread specNewThread : ChatThread) (specInv : InvokeOutcome) :
    (planner_process_message_async parsed planner_thread specInv
      specNewThread).2
      = Except.ok (parsed.reply, planner_thread, Planner.AGENT_NAME) := by
  simp [planner_process_message_async, hsteps, joinSteps, hsel]

/-- Witness for the amended C5: an unknown tag "Broadband" with a present
steps list falls back to the planner's own reply and name. -/
theorem claim_planner_no_match_witness :
    (planner_process_message_async
      (PlannerAgentResponse.mk (some ["s1"]) "direct reply" "Broadband")
      ChatThread.empty billingInvokeOk ChatThread.empty).2
      = Except.ok ("direct reply", ChatThread.empty, Planner.AGENT_NAME) :=
  claim_planner_no_match
    (PlannerAgentResponse.mk (some ["s1"]) "direct reply" "Broadband")
    ["s1"] rfl rfl ChatThread.empty ChatThread.empty billingInvokeOk

/-- Every atomic scheduler step either leaves a message's update list
unchanged or appends to its end. -/
theorem stepRun_updates_mono (w : World) (st : Step) (w1 : World)
    (h : stepRun w st = some w1) (id2 : String) :
    ∃ t, updatesOf w1 id2 = updatesOf w id2 ++ t := by
  cases st with
  | submit message_id content =>
      injection h with hw1
      subst hw1
      exact ⟨[], by simp [updatesOf, submit_message]⟩
  | phase1 message_id thread_id =>
      injection h with hw1
      subst hw1
      cases hm : dictGet w.messages_store message_id with
      | none =>
          refine ⟨[], ?_⟩
          rw [procPhase1_eq_of_notmem w message_id thread_id hm]
          simp
      | some m =>
          rw [procPhase1_eq_of_mem w message_id thread_id m hm]
          by_cases hid : id2 = message_id
          · subst hid
            exact ⟨[dispatchUpdate id2 w.clock],
              by simp [updatesOf, dictGet_dictSet_self]⟩
          · exact ⟨[], by simp [updatesOf,
              dictGet_dictSet_ne _ _ _ _ hid]⟩
  | emit message_id status result agent_name =>
      injection h with hw1
      subst hw1
      exact emit_updatesOf w message_id status result agent_name id2
  | phase2 message_id thread_id outcome thread0 =>
      cases hm : dictGet w.messages_store message_id with
      | none =>
          rw [stepRun, procPhase2_eq_of_notmem w message_id thread_id outcome
            thread0 hm] at h
          injection h with hw1
          subst hw1
          exact ⟨[], by simp [updatesOf]⟩
      | some m =>
          cases hu : dictGet w.updates_store message_id with
          | none =>
              rw [stepRun, procPhase2_eq_none w message_id thread_id outcome
                thread0 m hm hu] at h
              exact absurd h (by simp)
          | some us =>
              rw [stepRun, procPhase2_eq_of_mem w message_id thread_id outcome
                thread0 m us hm hu] at h
              injection h with hw1
              subst hw1
              by_cases hid : id2 = message_id
              · subst hid
                refine ⟨[finalUpdateOf id2 outcome w.clock], ?_⟩
                simp [updatesOf, dictGet_dictSet_self, hu]
              · exact ⟨[], by simp [updatesOf,
                  dictGet_dictSet_ne _ _ _ _ hid]⟩

/-- Monotonicity over whole schedules. -/
theorem traceRun_updates_mono (tr : List Step) : ∀ w w1 : World,
    traceRun w tr = some w1 → ∀ id2 : String,
    ∃ t, updatesOf w1 id2 = updatesOf w id2 ++ t := by
  induction tr with
  | nil =>
      intro w w1 h id2
      injection h with hw
      subst hw
      exact ⟨[], by simp⟩
  | cons st rest ih =>
      intro w w1 h id2
      cases hs : stepRun w st with
      | none =>
          rw [traceRun, hs] at h
          exact absurd h (by simp)
      | some w2 =>
          rw [traceRun, hs] at h
          obtain ⟨t1, h1⟩ := stepRun_updates_mono w st w2 hs id2
          obtain ⟨t2, h2⟩ := ih w2 w1 h id2
          exact ⟨t1 ++ t2, by rw [h2, h1, List.append_assoc]⟩

/-- C7: the per-message update log is append-only: across any sequence of
processor operations, a message's earlier update list stays a prefix of the
later one — in particular two reads of get_message_updates separated by
arbitrary operations are prefix-stable, with existing elements unmodified
and order preserved. -/
theorem claim_updates_append_only (tr : List Step) (w w1 : World)
    (h : traceRun w tr = some w1) (message_id : String) :
    (∃ t, updatesOf w1 message_id = updatesOf w message_id ++ t) ∧
    (∀ l1 l2, get_message_updates w message_id = Except.ok l1 →
      get_message_updates w1 message_id = Except.ok l2 →
      ∃ t, l2 = l1 ++ t) := by
  obtain ⟨t, ht⟩ := traceRun_updates_mono tr w w1 h message_id
  refine ⟨⟨t, ht⟩, ?_⟩
  intro l1 l2 h1 h2
  have e1 : l1 = updatesOf w message_id := by
    cases hm : dictGet w.messages_store message_id with
    | none => rw [get_message_updates, hm] at h1; exact absurd h1 (by simp)
    | some m =>
        rw [get_message_updates, hm] at h1
        injection h1 with hv
        exact hv.symm
  have e2 : l2 = updatesOf w1 message_id := by
    cases hm : dictGet w1.messages_store message_id with
    | none => rw [get_message_updates, hm] at h2; exact absurd h2 (by simp)
    | some m =>
        rw [get_message_updates, hm] at h2
        injection h2 with hv
        exact hv.symm
  exact ⟨t, by rw [e1, e2, ht]⟩

/-- Witness for C7: reads before and after a mixed batch of operations
(another message's submit, a callback append, the failing terminal phase)
are prefix-stable. -/
theorem claim_updates_append_only_witness :
    (∃ t, updatesOf exampleWB "m1" = updatesOf exampleWA "m1" ++ t) ∧
    (∃ l1 l2 t, get_message_updates exampleWA "m1" = Except.ok l1 ∧
      get_message_updates exampleWB "m1" = Except.ok l2 ∧ l2 = l1 ++ t) := by
  have h := claim_updates_append_only exampleTraceB exampleWA exampleWB rfl "m1"
  refine ⟨h.1, ?_⟩
  obtain ⟨l1, hl1⟩ : ∃ l1, get_message_updates exampleWA "m1" = Except.ok l1 :=
    ⟨_, rfl⟩
  obtain ⟨l2, hl2⟩ : ∃ l2, get_message_updates exampleWB "m1" = Except.ok l2 :=
    ⟨_, rfl⟩
  obtain ⟨t, ht⟩ := h.2 l1 l2 hl1 hl2
  exact ⟨l1, l2, t, hl1, hl2, ht⟩

/-! Status-history lemmas for the state-machine claim. -/

theorem filterMap_snoc (h : List (String × MessageStatus))
    (p : String × MessageStatus) (id : String) :
    ((h ++ [p]).filter (fun q => q.1 == id)).map (fun q => q.2)
      = (h.filter (fun q => q.1 == id)).map (fun q => q.2)
        ++ (if p.1 = id then [p.2] else []) := by
  rw [List.filter_append, List.map_append]
  by_cases hp : p.1 = id
  · have hb : (p.1 == id) = true := by simp [hp]
    simp [List.filter, hb, hp]
  · have hb : (p.1 == id) = false := by simp [hp]
    simp [List.filter, hb, hp]

theorem histOf_submit (w : World) (mid c id : String) :
    histOf (submit_message w mid c).1 id
      = histOf w id ++ (if mid = id then [MessageStatus.received] else []) :=
  filterMap_snoc w.statusHistory (mid, MessageStatus.received) id

theorem histOf_phase1_mem (w : World) (mid tid id : String) (m : StoredMessage)
    (hm : dictGet w.messages_store mid = some m) :
    histOf (procPhase1 w mid tid).1 id
      = histOf w id ++ (if mid = id then [MessageStatus.in_progress] else []) := by
  rw [procPhase1_eq_of_mem w mid tid m hm]
  exact filterMap_snoc w.statusHistory (mid, MessageStatus.in_progress) id

theorem histOf_emit (w : World) (mid : String) (status : MessageStatus)
    (result agent_name id : String) :
    histOf (on_intermediate_response w mid status result agent_name) id
      = histOf w id := rfl

/-- Preservation of the world invariant by a fresh submit. -/
theorem inv_submit (s b e : List String) (w : World) (mid c : String)
    (hfresh : mid ∉ s) (inv : WorldInv s b e w) :
    WorldInv (mid :: s) b e (submit_message w mid c).1 := by
  have hmb : mid ∉ b := fun hc => hfresh (inv.bs mid hc)
  have hme : mid ∉ e := fun hc => hmb (inv.eb mid hc)
  refine ⟨?_, inv.eb, ?_, ?_, ?_, ?_, ?_, ?_⟩
  · intro id hb
    exact List.mem_cons_of_mem _ (inv.bs id hb)
  · intro id
    constructor
    · intro hsome
      rcases (isSome_dictGet_dictSet _ _ _ _).1 hsome with rfl | hold
      · exact List.mem_cons_self _ _
      · exact List.mem_cons_of_mem _ ((inv.msgKeys id).1 hold)
    · intro hin
      rcases List.mem_cons.1 hin with rfl | hin2
      · exact (isSome_dictGet_dictSet _ _ _ _).2 (Or.inl rfl)
      · exact (isSome_dictGet_dictSet _ _ _ _).2
          (Or.inr ((inv.msgKeys id).2 hin2))
  · intro id hb
    exact inv.updKeys id hb
  · intro id hid
    have hids : id ∉ s := fun hc => hid (List.mem_cons_of_mem _ hc)
    have hne : ¬ mid = id := fun hc => hid (hc ▸ List.mem_cons_self _ _)
    rw [histOf_submit, if_neg hne, List.append_nil]
    exact inv.histNone id hids
  · intro id hid hb
    rcases List.mem_cons.1 hid with rfl | hid2
    · rw [histOf_submit, if_pos rfl, inv.histNone id hfresh]
      rfl
    · have hne : ¬ mid = id := fun hc => hfresh (hc ▸ hid2)
      rw [histOf_submit, if_neg hne, List.append_nil]
      exact inv.histRecv id hid2 hb
  · intro id hb he
    have hne : ¬ mid = id := fun hc => hmb (hc ▸ hb)
    rw [histOf_submit, if_neg hne, List.append_nil]
    exact inv.histProg id hb he
  · intro id he
    have hne : ¬ mid = id := fun hc => hme (hc ▸ he)
    rw [histOf_submit, if_neg hne, List.append_nil]
    exact inv.histTerm id he

/-- Preservation of the world invariant by the pre-await phase. -/
theorem inv_phase1 (s b e : List String) (w : World) (mid tid : String)
    (hsub : mid ∈ s) (hnew : mid ∉ b) (inv : WorldInv s b e w) :
    WorldInv s (mid :: b) e (procPhase1 w mid tid).1 := by
  have hme : mid ∉ e := fun hc => hnew (inv.eb mid hc)
  obtain ⟨m, hm⟩ := Option.isSome_iff_exists.1 ((inv.msgKeys mid).2 hsub)
  have hw := procPhase1_eq_of_mem w mid tid m hm
  refine ⟨?_, ?_, ?_, ?_, ?_, ?_, ?_, ?_⟩
  · intro id hb
    rcases List.mem_cons.1 hb with rfl | hb2
    · exact hsub
    · exact inv.bs id hb2
  · intro id he
    exact List.mem_cons_of_mem _ (inv.eb id he)
  · intro id
    rw [hw]
    constructor
    · intro hsome
      rcases (isSome_dictGet_dictSet _ _ _ _).1 hsome with rfl | hold
      · exact hsub
      · exact (inv.msgKeys id).1 hold
    · intro hin
      by_cases hid : id = mid
      · exact (isSome_dictGet_dictSet _ _ _ _).2 (Or.inl hid)
      · exact (isSome_dictGet_dictSet _ _ _ _).2
          (Or.inr ((inv.msgKeys id).2 hin))
  · intro id hb
    rw [hw]
    rcases List.mem_cons.1 hb with rfl | hb2
    · rw [dictGet_dictSet_self]
      rfl
    · by_cases hid : id = mid
      · subst hid
        rw [dictGet_dictSet_self]
        rfl
      · exact (isSome_dictGet_dictSet _ _ _ _).2
          (Or.inr (inv.updKeys id hb2))
  · intro id hid
    have hne : ¬ mid = id := fun hc => hid (hc ▸ hsub)
    rw [histOf_phase1_mem w mid tid id m hm, if_neg hne, List.append_nil]
    exact inv.histNone id hid
  · intro id hid hb
    have hne : ¬ mid = id := fun hc => hb (hc ▸ List.mem_cons_self _ _)
    rw [histOf_phase1_mem w mid tid id m hm, if_neg hne, List.append_nil]
    exact inv.histRecv id hid (fun hc => hb (List.mem_cons_of_mem _ hc))
  · intro id hb he
    rcases List.mem_cons.1 hb with rfl | hb2
    · rw [histOf_phase1_mem w id tid id m hm, if_pos rfl,
        inv.histRecv id hsub hnew]
      rfl
    · have hne : ¬ mid = id := fun hc => hnew (hc ▸ hb2)
      rw [histOf_phase1_mem w mid tid id m hm, if_neg hne, List.append_nil]
      exact inv.histProg id hb2 he
  · intro id he
    have hne : ¬ mid = id := fun hc => hme (hc ▸ he)
    rw [histOf_phase1_mem w mid tid id m hm, if_neg hne, List.append_nil]
    exact inv.histTerm id he

/-- Preservation of the world invariant by a callback append. -/
theorem inv_emit (s b e : List String) (w : World) (mid : String)
    (status : MessageStatus) (result agent_name : String)
    (inv : WorldInv s b e w) :
    WorldInv s b e (on_intermediate_response w mid status result agent_name) := by
  refine ⟨inv.bs, inv.eb, ?_, ?_, ?_, ?_, ?_, ?_⟩
  · intro id
    rw [emit_messages_store]
    exact inv.msgKeys id
  · intro id hb
    exact emit_updates_isSome w mid status result agent_name id
      (inv.updKeys id hb)
  · intro id hid
    rw [histOf_emit]
    exact inv.histNone id hid
  · intro id hid hb
    rw [histOf_emit]
    exact inv.histRecv id hid hb
  · intro id hb he
    rw [histOf_emit]
    exact inv.histProg id hb he
  · intro id he
    rw [histOf_emit]
    exact inv.histTerm id he

theorem histOf_mk (ms : Dict StoredMessage) (us : Dict (List UpdateResponse))
    (th : Dict ThreadVal) (clk : Nat) (hist : List (String × MessageStatus))
    (log : List (String × ThreadVal)) (id : String) :
    histOf (World.mk ms us th clk hist log) id
      = (hist.filter (fun q => q.1 == id)).map (fun q => q.2) := rfl

/-- The post-await phase succeeds on a begun message and preserves the
invariant, moving the message to the finished set. -/
theorem inv_phase2 (s b e : List String) (w : World) (mid tid : String)
    (outcome : Except String (String × ChatThread × String))
    (thread0 : ChatThread)
    (hbegun : mid ∈ b) (hnew : mid ∉ e) (inv : WorldInv s b e w) :
    ∃ w2, procPhase2 w mid tid outcome thread0 = some w2 ∧
      WorldInv s b (mid :: e) w2 := by
  have hsub := inv.bs mid hbegun
  obtain ⟨m, hm⟩ := Option.isSome_iff_exists.1 ((inv.msgKeys mid).2 hsub)
  obtain ⟨us, hu⟩ := Option.isSome_iff_exists.1 (inv.updKeys mid hbegun)
  refine ⟨_, procPhase2_eq_of_mem w mid tid outcome thread0 m us hm hu, ?_⟩
  refine ⟨inv.bs, ?_, ?_, ?_, ?_, ?_, ?_, ?_⟩
  · intro id he
    rcases List.mem_cons.1 he with rfl | he2
    · exact hbegun
    · exact inv.eb id he2
  · intro id
    dsimp only
    constructor
    · intro hsome
      rcases (isSome_dictGet_dictSet _ _ _ _).1 hsome with rfl | hold
      · exact hsub
      · exact (inv.msgKeys id).1 hold
    · intro hin
      by_cases hid : id = mid
      · exact (isSome_dictGet_dictSet _ _ _ _).2 (Or.inl hid)
      · exact (isSome_dictGet_dictSet _ _ _ _).2
          (Or.inr ((inv.msgKeys id).2 hin))
  · intro id hb
    dsimp only
    by_cases hid : id = mid
    · subst hid
      rw [dictGet_dictSet_self]
      rfl
    · exact (isSome_dictGet_dictSet _ _ _ _).2 (Or.inr (inv.updKeys id hb))
  · intro id hid
    have hne : ¬ mid = id := fun hc => hid (hc ▸ hsub)
    rw [histOf_mk, filterMap_snoc, if_neg hne, List.append_nil]
    exact inv.histNone id hid
  · intro id hid hb
    have hne : ¬ mid = id := fun hc => hb (hc ▸ hbegun)
    rw [histOf_mk, filterMap_snoc, if_neg hne, List.append_nil]
    exact inv.histRecv id hid hb
  · intro id hb he
    have hne : ¬ mid = id := fun hc => he (hc ▸ List.mem_cons_self _ _)
    rw [histOf_mk, filterMap_snoc, if_neg hne, List.append_nil]
    exact inv.histProg id hb (fun hc => he (List.mem_cons_of_mem _ hc))
  · intro id he
    rcases List.mem_cons.1 he with rfl | he2
    · rw [histOf_mk, filterMap_snoc, if_pos rfl]
      have hh := inv.histProg id hbegun hnew
      unfold histOf at hh
      rw [hh]
      cases outcome with
      | ok r => exact Or.inl rfl
      | error err => exact Or.inr rfl
    · have hne : ¬ mid = id := fun hc => hnew (hc ▸ he2)
      rw [histOf_mk, filterMap_snoc, if_neg hne, List.append_nil]
      exact inv.histTerm id he2

/-- The invariant at the empty start state. -/
theorem emptyWorldInv : WorldInv [] [] [] emptyWorld := by
  refine ⟨?_, ?_, ?_, ?_, ?_, ?_, ?_, ?_⟩
  · intro id hid
    exact absurd hid (List.not_mem_nil id)
  · intro id hid
    exact absurd hid (List.not_mem_nil id)
  · intro id
    simp [emptyWorld, dictGet]
  · intro id hid
    exact absurd hid (List.not_mem_nil id)
  · intro id _
    rfl
  · intro id hid _
    exact absurd hid (List.not_mem_nil id)
  · intro id hid _
    exact absurd hid (List.not_mem_nil id)
  · intro id hid
    exact absurd hid (List.not_mem_nil id)

/-- Running a well-formed schedule from an invariant-satisfying world lands
in an invariant-satisfying world whose submitted set contains the previous
one and all ids submitted along the schedule. -/
theorem traceRun_inv (tr : List Step) : ∀ (s b e : List String) (w : World),
    TraceWF s b e tr → WorldInv s b e w → ∀ w1 : World,
    traceRun w tr = some w1 →
    ∃ s1 b1 e1, WorldInv s1 b1 e1 w1 ∧
      (∀ id, id ∈ s → id ∈ s1) ∧
      (∀ id, id ∈ submittedIds tr → id ∈ s1) := by
  induction tr with
  | nil =>
      intro s b e w _ inv w1 h
      injection h with hw
      subst hw
      exact ⟨s, b, e, inv, fun id hid => hid,
        fun id hid => absurd hid (List.not_mem_nil id)⟩
  | cons st rest ih =>
      intro s b e w hwf inv w1 h
      cases hwf with
      | submit _ _ _ mid c _ hfresh hrest =>
          obtain ⟨s1, b1, e1, inv1, hmono, hsubm⟩ :=
            ih (mid :: s) b e (submit_message w mid c).1 hrest
              (inv_submit s b e w mid c hfresh inv) w1 h
          refine ⟨s1, b1, e1, inv1,
            fun id hid => hmono id (List.mem_cons_of_mem _ hid), ?_⟩
          intro id hid
          rcases List.mem_cons.1 hid with rfl | hid2
          · exact hmono id (List.mem_cons_self _ _)
          · exact hsubm id hid2
      | phase1 _ _ _ mid tid _ hsub hnew hrest =>
          obtain ⟨s1, b1, e1, inv1, hmono, hsubm⟩ :=
            ih s (mid :: b) e (procPhase1 w mid tid).1 hrest
              (inv_phase1 s b e w mid tid hsub hnew inv) w1 h
          exact ⟨s1, b1, e1, inv1, hmono, hsubm⟩
      | emit _ _ _ mid status result agent_name _ hrest =>
          obtain ⟨s1, b1, e1, inv1, hmono, hsubm⟩ :=
            ih s b e (on_intermediate_response w mid status result agent_name)
              hrest (inv_emit s b e w mid status result agent_name inv) w1 h
          exact ⟨s1, b1, e1, inv1, hmono, hsubm⟩
      | phase2 _ _ _ mid tid oc t0 _ hbegun hnew hrest =>
          obtain ⟨w2, hw2, inv2⟩ :=
            inv_phase2 s b e w mid tid oc t0 hbegun hnew inv
          simp only [traceRun, stepRun] at h
          rw [hw2] at h
          obtain ⟨s1, b1, e1, inv1, hmono, hsubm⟩ :=
            ih s b (mid :: e) w2 hrest inv2 w1 h
          exact ⟨s1, b1, e1, inv1, hmono, hsubm⟩

/-- C3: over any interleaving of submits and single-message background
tasks, the sequence of statuses stored for a message is a prefix of
Received, InProgress, then one terminal status — submission always stores
Received first, a terminal status is never stored before InProgress, and
nothing is stored after a terminal status. -/
theorem claim_status_machine (tr : List Step) (hwf : TraceWF [] [] [] tr)
    (w1 : World) (hrun : traceRun emptyWorld tr = some w1)
    (message_id : String) :
    statusSeqOK (histOf w1 message_id) ∧
    (message_id ∈ submittedIds tr →
      (histOf w1 message_id).head? = some MessageStatus.received) := by
  obtain ⟨s1, b1, e1, inv1, _, hsubm⟩ :=
    traceRun_inv tr [] [] [] emptyWorld hwf emptyWorldInv w1 hrun
  have hcase : ∀ id, statusSeqOK (histOf w1 id) ∧
      (id ∈ s1 → (histOf w1 id).head? = some MessageStatus.received) := by
    intro id
    by_cases he : id ∈ e1
    · rcases inv1.histTerm id he with hh | hh
      · exact ⟨Or.inr (Or.inr (Or.inr (Or.inl hh))), fun _ => by rw [hh]; rfl⟩
      · exact ⟨Or.inr (Or.inr (Or.inr (Or.inr hh))), fun _ => by rw [hh]; rfl⟩
    · by_cases hb : id ∈ b1
      · have hh := inv1.histProg id hb he
        exact ⟨Or.inr (Or.inr (Or.inl hh)), fun _ => by rw [hh]; rfl⟩
      · by_cases hs : id ∈ s1
        · have hh := inv1.histRecv id hs hb
          exact ⟨Or.inr (Or.inl hh), fun _ => by rw [hh]; rfl⟩
        · have hh := inv1.histNone id hs
          exact ⟨Or.inl hh, fun hc => absurd hc hs⟩
  exact ⟨(hcase message_id).1,
    fun hsub => (hcase message_id).2 (hsubm message_id hsub)⟩

/-- Witness for C3: the one-message example schedule yields the full legal
sequence Received, InProgress, Completed. -/
theorem claim_status_machine_witness :
    statusSeqOK (histOf exampleTraceW "m1") ∧
    (histOf exampleTraceW "m1").head? = some MessageStatus.received := by
  have hwf : TraceWF [] [] [] exampleTrace := by
    unfold exampleTrace
    refine TraceWF.submit _ _ _ _ _ _ (by decide) ?_
    refine TraceWF.phase1 _ _ _ _ _ _ (by decide) (by decide) ?_
    refine TraceWF.emit _ _ _ _ _ _ _ _ ?_
    refine TraceWF.phase2 _ _ _ _ _ _ _ _ (by decide) (by decide) ?_
    exact TraceWF.nil _ _ _
  have h := claim_status_machine exampleTrace hwf exampleTraceW rfl "m1"
  exact ⟨h.1, h.2 (by decide)⟩

end Semker
